import Mathlib

/-!
Shallow embedding of the Fizz project-tracking application: the relational
schema (tables, unique constraints, row-level-security SELECT policies, the
`generate_issue_key` stored procedure, the `has_role` / `get_user_role`
helpers) and the client-side logic (issue-key generation in
CreateIssueDialog, invite creation in CreateInviteDialog, invite acceptance
in AcceptInvite, the organization slug generator in CreateOrgDialog, and the
per-call-site error surfacing of the UI).

Tables are lists of rows; UUID columns become `Nat` identifiers; timestamps
become `Int` milliseconds; SQL `NULL` becomes `Option`.
-/

namespace Fizz

/-- The `app_role` enumerated type from the schema. -/
inductive AppRole
  | owner
  | admin
  | manager
  | contributor
  | viewer
deriving DecidableEq, Repr

/-- A row of the `projects` table (the columns the verified logic reads:
`id`, `org_id`, and the short `key`; `UNIQUE(org_id, key)`). -/
structure ProjectRow where
  id : Nat
  org_id : Nat
  key : String
deriving DecidableEq, Repr

/-- A row of the `issues` table (the columns the verified logic reads:
`id`, `project_id`, `issue_key`; `UNIQUE(project_id, issue_key)`). -/
structure IssueRow where
  id : Nat
  project_id : Nat
  issue_key : String
deriving DecidableEq, Repr

/-- A row of the `user_roles` table (`UNIQUE(user_id, org_id)`). -/
structure UserRoleRow where
  id : Nat
  user_id : Nat
  org_id : Nat
  role : AppRole
deriving DecidableEq, Repr

/-- A row of the `profiles` table (the columns the verified logic reads). -/
structure ProfileRow where
  id : Nat
  org_id : Option Nat
  email : String
deriving DecidableEq, Repr

/-- A row of the `sprints` table (the columns its SELECT policy reads). -/
structure SprintRow where
  id : Nat
  project_id : Nat
deriving DecidableEq, Repr

/-- A row of the `boards` table (the columns its SELECT policy reads). -/
structure BoardRow where
  id : Nat
  project_id : Nat
deriving DecidableEq, Repr

/-- A row of the `invites` table. -/
structure InviteRow where
  id : Nat
  org_id : Nat
  email : String
  role : AppRole
  token : String
  expires_at : Int
  accepted_at : Option Int
  accepted_by : Option Nat
deriving DecidableEq, Repr

/-- A row of the `deployments` table (the columns its SELECT policy reads). -/
structure DeploymentRow where
  id : Nat
  project_id : Nat
deriving DecidableEq, Repr

/-- The database state: one list per table of the schema that the verified
logic touches. -/
structure DBState where
  profiles : List ProfileRow
  user_roles : List UserRoleRow
  projects : List ProjectRow
  sprints : List SprintRow
  issues : List IssueRow
  boards : List BoardRow
  invites : List InviteRow
  deployments : List DeploymentRow
deriving DecidableEq, Repr

/-- The empty database (the state after the migrations, before any data). -/
def DBState.empty : DBState :=
  ⟨[], [], [], [], [], [], [], []⟩

/-! ### The `generate_issue_key` stored procedure

`SELECT key INTO v_project_key FROM projects WHERE id = p_project_id` picks
the (at most one) matching row; `SUBSTRING(issue_key FROM LENGTH(key) + 2)`
drops the first `LENGTH(key) + 1` characters; `CAST(… AS INTEGER)` parses a
decimal integer and raises on failure; `COALESCE(MAX(…), 0) + 1` is the
next sequence number. -/

/-- The decimal value of a digit character, `none` outside `0`-`9`. -/
def decDigit? (c : Char) : Option Nat :=
  if '0' ≤ c && c ≤ '9' then some (c.toNat - '0'.toNat) else none

/-- Parse a non-empty all-digit string (found after `acc` digits already
read); any non-digit character makes the whole cast fail. -/
def parseNatAux : List Char → Nat → Option Nat
  | [], acc => some acc
  | c :: cs, acc =>
    match decDigit? c with
    | some d => parseNatAux cs (acc * 10 + d)
    | none => none

/-- `CAST(text AS INTEGER)`: an optional minus sign followed by at least
one digit; anything else raises (modelled by `none`). -/
def pgCastInt : List Char → Option Int
  | [] => none
  | '-' :: cs =>
    match cs with
    | [] => none
    | _ => (parseNatAux cs 0).map (fun n => -(n : Int))
  | l => (parseNatAux l 0).map (fun n => (n : Int))

/-- Model of `CAST(SUBSTRING(issue_key FROM LENGTH(projKey) + 2) AS INTEGER)`:
drop the project key and the hyphen, parse the rest as an integer
(`none` models the cast raising an error). -/
def castSuffix (projKey issueKey : String) : Option Int :=
  pgCastInt (issueKey.data.drop (projKey.length + 1))

/-- Cast the suffix of every issue key in the list; `none` if any cast
raises (aborting the SQL statement). -/
def castAllSuffixes (projKey : String) : List IssueRow → Option (List Int)
  | [] => some []
  | i :: is =>
    match castSuffix projKey i.issue_key, castAllSuffixes projKey is with
    | some v, some vs => some (v :: vs)
    | _, _ => none

/-- SQL `MAX` over a column: `none` on the empty set. -/
def sqlMax : List Int → Option Int
  | [] => none
  | a :: l =>
    match sqlMax l with
    | none => some a
    | some m => some (max a m)

/-- `COALESCE(MAX(…), 0)`. -/
def coalesceMax (l : List Int) : Int :=
  match sqlMax l with
  | none => 0
  | some m => m

/-- The `generate_issue_key(p_project_id)` stored procedure. -/
def generate_issue_key (s : DBState) (pid : Nat) : Except String String :=
  match s.projects.find? (fun p => p.id == pid) with
  | none => Except.error "Project not found"
  | some p =>
    match castAllSuffixes p.key (s.issues.filter (fun i => i.project_id == pid)) with
    | none => Except.error "invalid input syntax for type integer"
    | some suffixes =>
      Except.ok (p.key ++ "-" ++ toString (coalesceMax suffixes + 1))

/-! ### The client-side issue-key generator (CreateIssueDialog)

`generateIssueKey` looks the project up in the loaded `projects` list,
counts the existing issues of the project (`count: 'exact'`), and returns
`` `${project.key}-${(count || 0) + 1}` ``. -/

/-- The client-side `generateIssueKey(projectId)` from CreateIssueDialog. -/
def clientGenerateIssueKey (s : DBState) (pid : Nat) : Option String :=
  match s.projects.find? (fun p => p.id == pid) with
  | none => none
  | some p =>
    some (p.key ++ "-" ++ toString ((s.issues.filter (fun i => i.project_id == pid)).length + 1))

/-! ### Unique constraints and database operations

`UNIQUE(user_id, org_id)` on `user_roles`, `UNIQUE(org_id, key)` on
`projects`, `UNIQUE(project_id, issue_key)` on `issues`.  An `INSERT` fails
when the new row collides with an existing one; an `UPDATE` fails when the
updated row collides with another row.  A failed statement leaves the
database unchanged. -/

/-- Two `user_roles` rows collide on `UNIQUE(user_id, org_id)`. -/
def urConflict (a b : UserRoleRow) : Bool :=
  a.user_id == b.user_id && a.org_id == b.org_id

/-- Two `projects` rows collide on `UNIQUE(org_id, key)`. -/
def projConflict (a b : ProjectRow) : Bool :=
  a.org_id == b.org_id && a.key == b.key

/-- Two `issues` rows collide on `UNIQUE(project_id, issue_key)`. -/
def issueConflict (a b : IssueRow) : Bool :=
  a.project_id == b.project_id && a.issue_key == b.issue_key

/-- The engine-side check that a list of rows satisfies a unique
constraint: no row collides with a later one. -/
def uniqueOk (conflict : α → α → Bool) : List α → Bool
  | [] => true
  | a :: l => !(l.any (conflict a)) && uniqueOk conflict l

/-- `INSERT INTO user_roles …`: fails on a `UNIQUE(user_id, org_id)`
collision, otherwise adds the row. -/
def insertUserRole (s : DBState) (r : UserRoleRow) : Except String DBState :=
  if s.user_roles.any (urConflict r) then
    Except.error "duplicate key value violates unique constraint on user_roles(user_id, org_id)"
  else
    Except.ok { s with user_roles := r :: s.user_roles }

/-- `INSERT INTO projects …`: fails on a `UNIQUE(org_id, key)` collision. -/
def insertProject (s : DBState) (p : ProjectRow) : Except String DBState :=
  if s.projects.any (projConflict p) then
    Except.error "duplicate key value violates unique constraint on projects(org_id, key)"
  else
    Except.ok { s with projects := p :: s.projects }

/-- `INSERT INTO issues …`: fails on a `UNIQUE(project_id, issue_key)`
collision. -/
def insertIssue (s : DBState) (i : IssueRow) : Except String DBState :=
  if s.issues.any (issueConflict i) then
    Except.error "duplicate key value violates unique constraint on issues(project_id, issue_key)"
  else
    Except.ok { s with issues := i :: s.issues }

/-- The inserts and the updates of constrained columns that the client can
issue against the three uniquely-constrained tables. -/
inductive DBOp
  | insUserRole (r : UserRoleRow)
  | insProject (p : ProjectRow)
  | insIssue (i : IssueRow)
  | updUserRoleOrg (rid : Nat) (newOrg : Nat)
  | updProjectKey (pid : Nat) (newKey : String)
  | updIssueKey (iid : Nat) (newKey : String)
deriving Repr

/-- The effect of an operation with the unique-constraint checks stripped
away: what the statement would commit if the engine did not enforce the
constraints. -/
def naiveApply (s : DBState) : DBOp → DBState
  | .insUserRole r => { s with user_roles := r :: s.user_roles }
  | .insProject p => { s with projects := p :: s.projects }
  | .insIssue i => { s with issues := i :: s.issues }
  | .updUserRoleOrg rid o =>
    { s with user_roles := s.user_roles.map (fun x => if x.id == rid then { x with org_id := o } else x) }
  | .updProjectKey pid k =>
    { s with projects := s.projects.map (fun x => if x.id == pid then { x with key := k } else x) }
  | .updIssueKey iid k =>
    { s with issues := s.issues.map (fun x => if x.id == iid then { x with issue_key := k } else x) }

/-- The engine's behaviour: apply the statement, failing (and committing
nothing) when a unique constraint would be violated. -/
def applyOp (s : DBState) : DBOp → Except String DBState
  | .insUserRole r => insertUserRole s r
  | .insProject p => insertProject s p
  | .insIssue i => insertIssue s i
  | .updUserRoleOrg rid o =>
    let s2 := naiveApply s (.updUserRoleOrg rid o)
    if uniqueOk urConflict s2.user_roles then Except.ok s2
    else Except.error "duplicate key value violates unique constraint on user_roles(user_id, org_id)"
  | .updProjectKey pid k =>
    let s2 := naiveApply s (.updProjectKey pid k)
    if uniqueOk projConflict s2.projects then Except.ok s2
    else Except.error "duplicate key value violates unique constraint on projects(org_id, key)"
  | .updIssueKey iid k =>
    let s2 := naiveApply s (.updIssueKey iid k)
    if uniqueOk issueConflict s2.issues then Except.ok s2
    else Except.error "duplicate key value violates unique constraint on issues(project_id, issue_key)"

/-- The state the client observes after issuing a statement: the new state
on success, the old state when the statement failed. -/
def runOp (s : DBState) (op : DBOp) : DBState :=
  match applyOp s op with
  | Except.ok s2 => s2
  | Except.error _ => s

/-- The uniqueness invariants of the schema, stated relationally: no two
`user_roles` rows share `(user_id, org_id)`, no two `projects` rows of one
organization share `key`, no two `issues` rows of one project share
`issue_key`. -/
def Invariant (s : DBState) : Prop :=
  s.user_roles.Pairwise (fun a b => ¬(a.user_id = b.user_id ∧ a.org_id = b.org_id)) ∧
  s.projects.Pairwise (fun a b => ¬(a.org_id = b.org_id ∧ a.key = b.key)) ∧
  s.issues.Pairwise (fun a b => ¬(a.project_id = b.project_id ∧ a.issue_key = b.issue_key))

/-- Database states reachable from the empty schema through (successful)
inserts and updates. -/
inductive Reachable : DBState → Prop
  | empty : Reachable DBState.empty
  | step {s s2 : DBState} (op : DBOp) : Reachable s → applyOp s op = Except.ok s2 → Reachable s2

/-! ### The security-definer helpers `has_role` and `get_user_role` -/

/-- `has_role(_user_id, _org_id, _role)`: `SELECT EXISTS (SELECT 1 FROM
user_roles WHERE user_id = _user_id AND org_id = _org_id AND role = _role)`. -/
def has_role (s : DBState) (u o : Nat) (r : AppRole) : Bool :=
  s.user_roles.any (fun ur => ur.user_id == u && ur.org_id == o && ur.role == r)

/-- `get_user_role(_user_id, _org_id)`: `SELECT role FROM user_roles WHERE
user_id = _user_id AND org_id = _org_id LIMIT 1` (NULL when no row). -/
def get_user_role (s : DBState) (u o : Nat) : Option AppRole :=
  (s.user_roles.find? (fun ur => ur.user_id == u && ur.org_id == o)).map (fun ur => ur.role)

/-! ### Row-level-security SELECT policies

The later migration drops and recreates the SELECT policies of `projects`
and `issues` over `user_roles`, and creates the `user_roles`, `invites`
and `deployments` policies over `user_roles`; the `sprints` and `boards`
SELECT policies from the initial migration remain in force and still join
through `profiles`. -/

/-- `projects`: `org_id IN (SELECT org_id FROM user_roles WHERE user_id =
auth.uid())`. -/
def projectSelectPolicy (s : DBState) (uid : Nat) (p : ProjectRow) : Bool :=
  (s.user_roles.filter (fun ur => ur.user_id == uid)).any (fun ur => ur.org_id == p.org_id)

/-- `issues`: `project_id IN (SELECT p.id FROM projects p JOIN user_roles
ur ON ur.org_id = p.org_id WHERE ur.user_id = auth.uid())`. -/
def issueSelectPolicy (s : DBState) (uid : Nat) (i : IssueRow) : Bool :=
  (s.projects.filter (fun p =>
    s.user_roles.any (fun ur => ur.org_id == p.org_id && ur.user_id == uid))).any
    (fun p => p.id == i.project_id)

/-- `user_roles`: `org_id IN (SELECT org_id FROM user_roles WHERE user_id =
auth.uid())`. -/
def userRoleSelectPolicy (s : DBState) (uid : Nat) (r : UserRoleRow) : Bool :=
  (s.user_roles.filter (fun ur => ur.user_id == uid)).any (fun ur => ur.org_id == r.org_id)

/-- `invites`: `org_id IN (SELECT org_id FROM user_roles WHERE user_id =
auth.uid())`. -/
def inviteSelectPolicy (s : DBState) (uid : Nat) (iv : InviteRow) : Bool :=
  (s.user_roles.filter (fun ur => ur.user_id == uid)).any (fun ur => ur.org_id == iv.org_id)

/-- `deployments`: `project_id IN (SELECT p.id FROM projects p JOIN
user_roles ur ON ur.org_id = p.org_id WHERE ur.user_id = auth.uid())`. -/
def deploymentSelectPolicy (s : DBState) (uid : Nat) (d : DeploymentRow) : Bool :=
  (s.projects.filter (fun p =>
    s.user_roles.any (fun ur => ur.org_id == p.org_id && ur.user_id == uid))).any
    (fun p => p.id == d.project_id)

/-- `sprints` (initial migration, never recreated): `project_id IN (SELECT
p.id FROM projects p INNER JOIN profiles pr ON pr.org_id = p.org_id WHERE
pr.id = auth.uid())`. -/
def sprintSelectPolicy (s : DBState) (uid : Nat) (sp : SprintRow) : Bool :=
  (s.projects.filter (fun p =>
    s.profiles.any (fun pr => pr.org_id == some p.org_id && pr.id == uid))).any
    (fun p => p.id == sp.project_id)

/-- `boards` (initial migration, never recreated): same `profiles` join as
`sprints`. -/
def boardSelectPolicy (s : DBState) (uid : Nat) (b : BoardRow) : Bool :=
  (s.projects.filter (fun p =>
    s.profiles.any (fun pr => pr.org_id == some p.org_id && pr.id == uid))).any
    (fun p => p.id == b.project_id)

/-- The `user_roles` table records a membership of user `uid` in
organization `orgId` (the spec's notion of role membership). -/
def HasMembership (s : DBState) (uid orgId : Nat) : Prop :=
  ∃ ur ∈ s.user_roles, ur.user_id = uid ∧ ur.org_id = orgId

/-- The `profiles` table carries `orgId` as the user's (single, legacy)
organization. -/
def ProfileInOrg (s : DBState) (uid orgId : Nat) : Prop :=
  ∃ pr ∈ s.profiles, pr.id = uid ∧ pr.org_id = some orgId

/-! ### Client-side string helpers (JS `toLowerCase`, `trim`) -/

/-- JS `String.prototype.toLowerCase` on one character (ASCII range, which
is all the verified logic relies on). -/
def jsLowerChar (c : Char) : Char :=
  if 'A' ≤ c ∧ c ≤ 'Z' then Char.ofNat (c.toNat + 32) else c

/-- JS `String.prototype.toLowerCase`. -/
def jsToLowerCase (s : String) : String :=
  ⟨s.data.map jsLowerChar⟩

/-- An ASCII whitespace character (the characters the verified logic may
meet that JS `trim` removes). -/
def isJsSpace (c : Char) : Bool :=
  c == ' ' || c == '\t' || c == '\n' || c == '\r'

/-- JS `String.prototype.trim`: strip whitespace from both ends. -/
def jsTrim (s : String) : String :=
  ⟨((s.data.dropWhile isJsSpace).reverse.dropWhile isJsSpace).reverse⟩

/-! ### AcceptInvite (src/pages/AcceptInvite.tsx)

`acceptInvite` looks the invite up by token with `accepted_at IS NULL`
(`.single()` fails unless exactly one row), rejects expired invitations,
rejects a mismatched email, then updates the acceptor's profile, inserts a
`user_roles` row, and stamps `accepted_at` / `accepted_by`. -/

/-- The outcome of `acceptInvite`, one constructor per exit path of the
source. -/
inductive AcceptOutcome
  | invalidLink
  | notFoundOrAccepted
  | expired
  | wrongEmail
  | stepFailed (msg : String)
  | success
deriving DecidableEq, Repr

/-- The message the page shows for each outcome (the literal strings of
the source; a thrown backend error surfaces its own message). -/
def AcceptOutcome.message : AcceptOutcome → String
  | .invalidLink => "Invalid invitation link"
  | .notFoundOrAccepted => "Invitation not found or already accepted"
  | .expired => "This invitation has expired"
  | .wrongEmail => "This invitation was sent to a different email address"
  | .stepFailed msg => msg
  | .success => "You've successfully joined the organization!"

/-- `.from('invites').select(…).eq('token', token).is('accepted_at',
null).single()`: exactly one matching row, else an error. -/
def findInviteByToken (s : DBState) (t : String) : Option InviteRow :=
  match s.invites.filter (fun i => i.token == t && i.accepted_at == none) with
  | [inv] => some inv
  | _ => none

/-- The `acceptInvite` flow.  `uid` / `userEmail` are the signed-in user,
`tok` the token query parameter, `now` the current time, `newRoleId` the
id the engine generates for the inserted `user_roles` row.  Returns the
outcome and the database state the flow leaves behind. -/
def acceptInvite (s : DBState) (uid : Nat) (userEmail : String)
    (tok : Option String) (now : Int) (newRoleId : Nat) : AcceptOutcome × DBState :=
  match tok with
  | none => (AcceptOutcome.invalidLink, s)
  | some t =>
    match findInviteByToken s t with
    | none => (AcceptOutcome.notFoundOrAccepted, s)
    | some inv =>
      if inv.expires_at < now then (AcceptOutcome.expired, s)
      else if jsToLowerCase inv.email ≠ jsToLowerCase userEmail then
        (AcceptOutcome.wrongEmail, s)
      else
        let profs := s.profiles.map
          (fun p => if p.id == uid then { p with org_id := some inv.org_id } else p)
        let s1 := { s with profiles := profs }
        match insertUserRole s1 ⟨newRoleId, uid, inv.org_id, inv.role⟩ with
        | Except.error e => (AcceptOutcome.stepFailed e, s1)
        | Except.ok s2 =>
          let invs := s2.invites.map
            (fun i => if i.id == inv.id then { i with accepted_at := some now, accepted_by := some uid } else i)
          (AcceptOutcome.success, { s2 with invites := invs })

/-! ### CreateInviteDialog (src/unnamed/part_001)

`handleSubmit` filters the entered addresses (`e.trim() && e.includes('@')`),
and maps each valid address to an invite row with the selected role, the
trimmed and lowercased email, a fresh token, and
`expires_at = Date.now() + 7 * 24 * 60 * 60 * 1000`. -/

/-- The dialog's role selector: the TypeScript union
`'admin' | 'manager' | 'contributor' | 'viewer'`. -/
inductive InviteRoleSel
  | admin
  | manager
  | contributor
  | viewer
deriving DecidableEq, Repr

/-- The `app_role` value submitted for each selectable role. -/
def InviteRoleSel.toAppRole : InviteRoleSel → AppRole
  | .admin => AppRole.admin
  | .manager => AppRole.manager
  | .contributor => AppRole.contributor
  | .viewer => AppRole.viewer

/-- An invite row as assembled by the dialog before insertion. -/
structure NewInvite where
  org_id : Nat
  email : String
  role : AppRole
  token : String
  expires_at : Int
  created_by : Nat
deriving DecidableEq, Repr

/-- `emails.filter((e) => e.trim() && e.includes('@'))` (a string is truthy
when non-empty). -/
def validEmails (emails : List String) : List String :=
  emails.filter (fun e => !(jsTrim e).data.isEmpty && e.data.contains '@')

/-- `validEmails.map((email) => ({ org_id, email: email.trim().toLowerCase(),
role, token: crypto.randomUUID(), expires_at: …, created_by }))`; `tok i`
models the i-th generated random token. -/
def mkInviteRows (orgId : Nat) (role : InviteRoleSel) (now : Int) (uid : Nat)
    (tok : Nat → String) : Nat → List String → List NewInvite
  | _, [] => []
  | i, e :: es =>
    ⟨orgId, jsToLowerCase (jsTrim e), role.toAppRole, tok i,
      now + 7 * 24 * 60 * 60 * 1000, uid⟩ :: mkInviteRows orgId role now uid tok (i + 1) es

/-- The rows `CreateInviteDialog.handleSubmit` inserts into `invites`. -/
def createInviteRows (orgId : Nat) (emails : List String) (role : InviteRoleSel)
    (now : Int) (uid : Nat) (tok : Nat → String) : List NewInvite :=
  mkInviteRows orgId role now uid tok 0 (validEmails emails)

/-! ### CreateOrgDialog's slug generator

`generateSlug = (name) => name.toLowerCase().replace(/[^a-z0-9]+/g, '-')
.replace(/^-|-$/g, '')`. -/

/-- The character class `[a-z0-9]` of the slug regex. -/
def isSlugAlnum (c : Char) : Bool :=
  ('a' ≤ c && c ≤ 'z') || ('0' ≤ c && c ≤ '9')

/-- `replace(/[^a-z0-9]+/g, '-')`: each maximal run of characters outside
`[a-z0-9]` becomes a single hyphen.  `prevNon` records whether the previous
character belonged to such a run. -/
def collapseRuns (prevNon : Bool) : List Char → List Char
  | [] => []
  | c :: cs =>
    if isSlugAlnum c then c :: collapseRuns false cs
    else if prevNon then collapseRuns true cs
    else '-' :: collapseRuns true cs

/-- The `^-` alternative of `replace(/^-|-$/g, '')`: remove one leading
hyphen. -/
def dropLeadingHyphen (l : List Char) : List Char :=
  if l.head? = some '-' then l.tail else l

/-- The `-$` alternative of `replace(/^-|-$/g, '')`: remove one trailing
hyphen. -/
def dropTrailingHyphen (l : List Char) : List Char :=
  if l.getLast? = some '-' then l.dropLast else l

/-- `replace(/^-|-$/g, '')`: remove one leading and one trailing hyphen. -/
def stripEdgeHyphens (l : List Char) : List Char :=
  dropTrailingHyphen (dropLeadingHyphen l)

/-- `generateSlug` from CreateOrgDialog. -/
def generateSlug (s : String) : String :=
  ⟨stripEdgeHyphens (collapseRuns false (s.data.map jsLowerChar))⟩

/-! ### Error surfacing at the client's backend call sites

One entry per `try`/`catch` (or error-inspection) site around a backend
call in the client sources, recording how the caught error reaches the
user. -/

/-- How a call site surfaces a backend error. -/
inductive ErrorSurface
  | toast
  | consoleLog
  | inlineStatus
  | ignored
deriving DecidableEq, Repr

/-- A backend call site of the client: the component, the function holding
the call, and how its error handling surfaces a failure. -/
structure CallSite where
  component : String
  fn : String
  surface : ErrorSurface
deriving DecidableEq, Repr

/-- Every backend call site of the client sources with its error handling:
`toast` for a `toast({ variant: 'destructive' })` in the catch handler,
`consoleLog` for a bare `console.error`, `inlineStatus` for AcceptInvite's
status card, `ignored` where the error is discarded without surfacing. -/
def clientCallSites : List CallSite :=
  [⟨"Board", "loadIssues", ErrorSurface.consoleLog⟩,
   ⟨"Dashboard", "loadStats", ErrorSurface.consoleLog⟩,
   ⟨"Dashboard", "checkUserOrg", ErrorSurface.ignored⟩,
   ⟨"CreateIssueDialog", "loadProjects", ErrorSurface.ignored⟩,
   ⟨"CreateIssueDialog", "generateIssueKey", ErrorSurface.ignored⟩,
   ⟨"CreateIssueDialog", "handleSubmit", ErrorSurface.toast⟩,
   ⟨"CreateInviteDialog", "handleSubmit", ErrorSurface.toast⟩,
   ⟨"CreateOrgDialog", "handleSubmit", ErrorSurface.toast⟩,
   ⟨"CreateProjectDialog", "loadUserOrg", ErrorSurface.ignored⟩,
   ⟨"CreateProjectDialog", "handleSubmit", ErrorSurface.toast⟩,
   ⟨"CreateSprintDialog", "loadProjects", ErrorSurface.ignored⟩,
   ⟨"CreateSprintDialog", "handleSubmit", ErrorSurface.toast⟩,
   ⟨"IssueDetailSheet", "loadIssue", ErrorSurface.toast⟩,
   ⟨"IssueDetailSheet", "updateIssueField", ErrorSurface.toast⟩,
   ⟨"AcceptInvite", "acceptInvite", ErrorSurface.inlineStatus⟩,
   ⟨"SmartDashboard", "loadDashboard", ErrorSurface.ignored⟩]

/-- The call sites that do surface errors as toasts: the five dialog form
submissions and the issue-detail sheet's load and field update. -/
def toastCallSites : List CallSite :=
  [⟨"CreateIssueDialog", "handleSubmit", ErrorSurface.toast⟩,
   ⟨"CreateInviteDialog", "handleSubmit", ErrorSurface.toast⟩,
   ⟨"CreateOrgDialog", "handleSubmit", ErrorSurface.toast⟩,
   ⟨"CreateProjectDialog", "handleSubmit", ErrorSurface.toast⟩,
   ⟨"CreateSprintDialog", "handleSubmit", ErrorSurface.toast⟩,
   ⟨"IssueDetailSheet", "loadIssue", ErrorSurface.toast⟩,
   ⟨"IssueDetailSheet", "updateIssueField", ErrorSurface.toast⟩]

/-! ## Helper lemmas -/

theorem castAllSuffixes_of_map (key : String) :
    ∀ (l : List IssueRow) (vs : List Int),
      l.map (fun i => castSuffix key i.issue_key) = vs.map some →
      castAllSuffixes key l = some vs := by
  intro l
  induction l with
  | nil =>
    intro vs h
    cases vs with
    | nil => rfl
    | cons w ws => simp at h
  | cons i is ih =>
    intro vs h
    cases vs with
    | nil => simp at h
    | cons w ws =>
      simp only [List.map_cons, List.cons.injEq] at h
      simp [castAllSuffixes, h.1, ih ws h.2]

theorem map_of_castAllSuffixes (key : String) :
    ∀ (l : List IssueRow) (vs : List Int),
      castAllSuffixes key l = some vs →
      l.map (fun i => castSuffix key i.issue_key) = vs.map some := by
  intro l
  induction l with
  | nil =>
    intro vs h
    simp only [castAllSuffixes, Option.some.injEq] at h
    simp [← h]
  | cons i is ih =>
    intro vs h
    simp only [castAllSuffixes] at h
    cases hc : castSuffix key i.issue_key with
    | none => rw [hc] at h; exact absurd h (by simp)
    | some v =>
      rw [hc] at h
      cases hrest : castAllSuffixes key is with
      | none => rw [hrest] at h; exact absurd h (by simp)
      | some ws =>
        rw [hrest] at h
        simp only [Option.some.injEq] at h
        subst h
        simp [hc, ih ws hrest]

theorem castAllSuffixes_total (key : String) :
    ∀ (l : List IssueRow),
      (∀ i ∈ l, ∃ v, castSuffix key i.issue_key = some v) →
      ∃ vs, castAllSuffixes key l = some vs := by
  intro l
  induction l with
  | nil => intro _; exact ⟨[], rfl⟩
  | cons i is ih =>
    intro h
    obtain ⟨v, hv⟩ := h i (List.mem_cons_self i is)
    obtain ⟨ws, hws⟩ := ih (fun j hj => h j (List.mem_cons_of_mem i hj))
    exact ⟨v :: ws, by simp [castAllSuffixes, hv, hws]⟩

theorem sqlMax_eq_none (l : List Int) : sqlMax l = none ↔ l = [] := by
  cases l with
  | nil => simp [sqlMax]
  | cons a t =>
    simp only [sqlMax]
    cases sqlMax t <;> simp

theorem sqlMax_mem : ∀ (l : List Int) (m : Int), sqlMax l = some m → m ∈ l := by
  intro l
  induction l with
  | nil => intro m h; simp [sqlMax] at h
  | cons a t ih =>
    intro m h
    simp only [sqlMax] at h
    cases ht : sqlMax t with
    | none =>
      rw [ht] at h
      simp only [Option.some.injEq] at h
      simp [← h]
    | some m0 =>
      rw [ht] at h
      simp only [Option.some.injEq] at h
      rcases max_choice a m0 with hmax | hmax
      · rw [hmax] at h; simp [← h]
      · rw [hmax] at h
        exact List.mem_cons_of_mem a (h ▸ ih m0 ht)

theorem sqlMax_le : ∀ (l : List Int) (v m : Int), v ∈ l → sqlMax l = some m → v ≤ m := by
  intro l
  induction l with
  | nil => intro v m hv; simp at hv
  | cons a t ih =>
    intro v m hv h
    simp only [sqlMax] at h
    cases ht : sqlMax t with
    | none =>
      rw [ht] at h
      simp only [Option.some.injEq] at h
      rcases List.mem_cons.mp hv with rfl | hvt
      · omega
      · exact absurd ((sqlMax_eq_none t).mp ht ▸ hvt) (List.not_mem_nil v)
    | some m0 =>
      rw [ht] at h
      simp only [Option.some.injEq] at h
      rcases List.mem_cons.mp hv with rfl | hvt
      · subst h; exact le_max_left v m0
      · subst h; exact le_trans (ih v m0 hvt ht) (le_max_right a m0)

/-- The specification-side notion of "the maximum numeric suffix among the
issue_key values": `m` parses out of some issue's key and bounds the suffix
of every issue's key (so every suffix parses). -/
def IsMaxSuffix (key : String) (issues : List IssueRow) (m : Int) : Prop :=
  (∃ i ∈ issues, castSuffix key i.issue_key = some m) ∧
  ∀ i ∈ issues, ∃ v, castSuffix key i.issue_key = some v ∧ v ≤ m

theorem coalesceMax_of_isMax (key : String) (l : List IssueRow) (m : Int)
    (h : IsMaxSuffix key l m) :
    ∃ vs, castAllSuffixes key l = some vs ∧ coalesceMax vs = m := by
  obtain ⟨⟨i0, hi0, hs0⟩, hbound⟩ := h
  obtain ⟨vs, hvs⟩ := castAllSuffixes_total key l
    (fun j hj => (hbound j hj).imp (fun v hv => hv.1))
  refine ⟨vs, hvs, ?_⟩
  have hmap := map_of_castAllSuffixes key l vs hvs
  have hmem : m ∈ vs := by
    have : some m ∈ vs.map some := by
      rw [← hmap]
      exact List.mem_map.mpr ⟨i0, hi0, hs0⟩
    simpa using this
  have hne : vs ≠ [] := by
    intro hnil
    rw [hnil] at hmem
    exact List.not_mem_nil m hmem
  obtain ⟨m0, hm0⟩ : ∃ m0, sqlMax vs = some m0 := by
    cases hq : sqlMax vs with
    | none => exact absurd ((sqlMax_eq_none vs).mp hq) hne
    | some m0 => exact ⟨m0, rfl⟩
  have hm0mem := sqlMax_mem vs m0 hm0
  have hm0le : m0 ≤ m := by
    have : some m0 ∈ l.map (fun i => castSuffix key i.issue_key) := by
      rw [hmap]
      exact List.mem_map.mpr ⟨m0, hm0mem, rfl⟩
    obtain ⟨j, hj, hjs⟩ := List.mem_map.mp this
    obtain ⟨v, hv, hvle⟩ := hbound j hj
    rw [hv] at hjs
    cases hjs
    exact hvle
  have hle : m ≤ m0 := sqlMax_le vs m m0 hmem hm0
  have : m0 = m := le_antisymm hm0le hle
  simp [coalesceMax, hm0, this]

/-! ## C1: the stored procedure generate_issue_key -/

/-- C1: `generate_issue_key` raises 'Project not found' when no project row
with the given id exists; on a project with no issues it returns `KEY-1`;
and when the project's issues' numeric suffixes have maximum `m`, it
returns the project key, a hyphen, and `m + 1`. -/
theorem generate_issue_key_spec (s : DBState) (pid : Nat) :
    (s.projects.find? (fun p => p.id == pid) = none →
      generate_issue_key s pid = Except.error "Project not found") ∧
    (∀ p : ProjectRow, s.projects.find? (fun p => p.id == pid) = some p →
      (s.issues.filter (fun i => i.project_id == pid) = [] →
        generate_issue_key s pid = Except.ok (p.key ++ "-" ++ toString (1 : Int))) ∧
      (∀ m : Int, IsMaxSuffix p.key (s.issues.filter (fun i => i.project_id == pid)) m →
        generate_issue_key s pid = Except.ok (p.key ++ "-" ++ toString (m + 1)))) := by
  refine ⟨fun hnone => ?_, fun p hp => ⟨fun hnil => ?_, fun m hmax => ?_⟩⟩
  · simp [generate_issue_key, hnone]
  · simp [generate_issue_key, hp, hnil, castAllSuffixes, coalesceMax, sqlMax]
  · obtain ⟨vs, hvs, hcoal⟩ := coalesceMax_of_isMax p.key _ m hmax
    simp [generate_issue_key, hp, hvs, hcoal]

/-- C1 witness: on a project `P` (id 1) with issues `P-3` and `P-1` the
procedure returns `P-4`, and for an id (2) with no project row it raises
'Project not found'. -/
theorem generate_issue_key_spec_witness :
    (generate_issue_key ⟨[], [], [⟨1, 5, "P"⟩], [], [⟨10, 1, "P-3"⟩, ⟨11, 1, "P-1"⟩], [], [], []⟩ 1
      = Except.ok ("P" ++ "-" ++ toString ((3 : Int) + 1))) ∧
    (generate_issue_key ⟨[], [], [⟨1, 5, "P"⟩], [], [⟨10, 1, "P-3"⟩, ⟨11, 1, "P-1"⟩], [], [], []⟩ 2
      = Except.error "Project not found") := by
  constructor
  · refine ((generate_issue_key_spec _ 1).2 ⟨1, 5, "P"⟩ (by decide)).2 3 ⟨⟨⟨10, 1, "P-3"⟩, by decide, by decide⟩, ?_⟩
    intro i hi
    have hi2 : i = ⟨10, 1, "P-3"⟩ ∨ i = ⟨11, 1, "P-1"⟩ := by
      have := List.mem_filter.mp hi
      simpa using this.1
    rcases hi2 with rfl | rfl
    · exact ⟨3, by decide, by decide⟩
    · exact ⟨1, by decide, by decide⟩
  · exact (generate_issue_key_spec _ 2).1 (by decide)

/-! ## C2: client-side generateIssueKey versus the stored procedure -/

theorem toString_intCast_nat (k : Nat) : toString ((k : Int)) = toString k := rfl

theorem sqlMax_append_one (l : List Int) (a : Int) :
    sqlMax (l ++ [a]) =
      some (match sqlMax l with | none => a | some m => max m a) := by
  induction l with
  | nil => simp [sqlMax]
  | cons b t ih =>
    cases ht : sqlMax t with
    | none =>
      have ht2 : t = [] := (sqlMax_eq_none t).mp ht
      subst ht2
      simp [sqlMax]
    | some m =>
      simp only [List.cons_append, sqlMax, List.append_eq]
      rw [ih, ht]
      simp [max_assoc]

theorem sqlMax_range_succ (n : Nat) :
    sqlMax ((List.range n).map (fun k : Nat => ((k : Int) + 1))) =
      if n = 0 then none else some (n : Int) := by
  induction n with
  | zero => simp [sqlMax]
  | succ n ih =>
    rw [List.range_succ, List.map_append, List.map_singleton, sqlMax_append_one, ih]
    by_cases hn : n = 0
    · subst hn; norm_num
    · rw [if_neg hn, if_neg (Nat.succ_ne_zero n)]
      have hmx : max (n : Int) ((n : Int) + 1) = (n : Int) + 1 := max_eq_right (by omega)
      simp only [hmx]
      norm_num

theorem coalesceMax_range (n : Nat) :
    coalesceMax ((List.range n).map (fun k : Nat => ((k : Int) + 1))) = (n : Int) := by
  rw [coalesceMax, sqlMax_range_succ]
  by_cases hn : n = 0
  · subst hn; simp
  · rw [if_neg hn]

/-- The one-issue database on which the two generators disagree: project
`P` (id 1) whose single issue has key `P-5`. -/
def mismatchDB : DBState :=
  ⟨[], [], [⟨1, 5, "P"⟩], [], [⟨10, 1, "P-5"⟩], [], [], []⟩

/-- C2 counterexample: on a project whose single issue is `P-5` the
client-side generator (count + 1) returns `P-2` while the stored procedure
(max suffix + 1) returns `P-6`, so the two do not agree. -/
theorem issue_key_generators_disagree :
    clientGenerateIssueKey mismatchDB 1 = some "P-2" ∧
    generate_issue_key mismatchDB 1 = Except.ok "P-6" ∧
    ("P-2" : String) ≠ "P-6" :=
  ⟨by decide, rfl, by decide⟩

theorem sqlMax_perm : ∀ (l1 l2 : List Int), List.Perm l1 l2 → sqlMax l1 = sqlMax l2 := by
  intro l1 l2 h
  induction h with
  | nil => rfl
  | cons x h ih => simp only [sqlMax, ih]
  | swap x y l =>
    simp only [sqlMax]
    cases sqlMax l with
    | none => simp [max_comm]
    | some m => simp [max_left_comm]
  | trans h1 h2 ih1 ih2 => exact ih1.trans ih2

theorem perm_of_map_some (l1 l2 : List Int)
    (h : List.Perm (l1.map some) (l2.map some)) : List.Perm l1 l2 := by
  have h2 : ((l1.map some : List (Option Int)) : Multiset (Option Int))
      = ((l2.map some : List (Option Int)) : Multiset (Option Int)) :=
    Multiset.coe_eq_coe.mpr h
  rw [← Multiset.map_coe, ← Multiset.map_coe] at h2
  exact Multiset.coe_eq_coe.mp (Multiset.map_injective (Option.some_injective Int) h2)

/-- C2 (amended): the client-side generator (count of existing issues plus
one) and the stored procedure (maximum numeric suffix plus one) need not
agree in general; they do agree whenever the project's n existing issues
carry the numeric suffixes exactly 1..n in some order — in particular
whenever keys were assigned sequentially with no deletions — both
returning the project key, a hyphen, and n + 1. -/
theorem issue_key_generators_agree (s : DBState) (pid : Nat) (p : ProjectRow) (n : Nat)
    (hp : s.projects.find? (fun q => q.id == pid) = some p)
    (hseq : List.Perm
      ((s.issues.filter (fun i => i.project_id == pid)).map
        (fun i => castSuffix p.key i.issue_key))
      ((List.range n).map (fun k : Nat => some ((k : Int) + 1)))) :
    clientGenerateIssueKey s pid = some (p.key ++ "-" ++ toString (n + 1)) ∧
    generate_issue_key s pid = Except.ok (p.key ++ "-" ++ toString (n + 1)) := by
  have hlen : (s.issues.filter (fun i => i.project_id == pid)).length = n := by
    have h1 := hseq.length_eq
    simpa using h1
  have htotal : ∀ i ∈ s.issues.filter (fun i => i.project_id == pid),
      ∃ v, castSuffix p.key i.issue_key = some v := by
    intro i hi
    have hmem : castSuffix p.key i.issue_key ∈
        (List.range n).map (fun k : Nat => some ((k : Int) + 1)) :=
      hseq.mem_iff.mp (List.mem_map.mpr ⟨i, hi, rfl⟩)
    obtain ⟨k, _, hk⟩ := List.mem_map.mp hmem
    exact ⟨(k : Int) + 1, hk.symm⟩
  obtain ⟨vs, hvs⟩ := castAllSuffixes_total p.key _ htotal
  have hmap := map_of_castAllSuffixes p.key _ vs hvs
  have hperm2 : List.Perm (vs.map some)
      (((List.range n).map (fun k : Nat => ((k : Int) + 1))).map some) := by
    rw [← hmap, List.map_map]
    exact hseq
  have hpermvs : List.Perm vs ((List.range n).map (fun k : Nat => ((k : Int) + 1))) :=
    perm_of_map_some _ _ hperm2
  have hcoal : coalesceMax vs = (n : Int) := by
    have h2 := coalesceMax_range n
    unfold coalesceMax at h2 ⊢
    rw [sqlMax_perm _ _ hpermvs]
    exact h2
  have hcastnat : ((n : Int) + 1) = ((n + 1 : Nat) : Int) := by push_cast; ring
  constructor
  · simp [clientGenerateIssueKey, hp, hlen]
  · simp only [generate_issue_key, hp, hvs, hcoal, hcastnat, toString_intCast_nat]

/-- C2 amended witness: with issues stored as `P-2`, `P-1` (the numeric
suffixes 1..2, out of storage order) both generators return `P-3`. -/
theorem issue_key_generators_agree_witness :
    clientGenerateIssueKey ⟨[], [], [⟨1, 5, "P"⟩], [], [⟨11, 1, "P-2"⟩, ⟨10, 1, "P-1"⟩], [], [], []⟩ 1
      = some ("P" ++ "-" ++ toString (2 + 1)) ∧
    generate_issue_key ⟨[], [], [⟨1, 5, "P"⟩], [], [⟨11, 1, "P-2"⟩, ⟨10, 1, "P-1"⟩], [], [], []⟩ 1
      = Except.ok ("P" ++ "-" ++ toString (2 + 1)) :=
  issue_key_generators_agree _ 1 ⟨1, 5, "P"⟩ 2 (by decide) (by decide)

/-! ## C3: uniqueness invariants of reachable database states -/

theorem uniqueOk_iff_pairwise {α : Type} (c : α → α → Bool) (l : List α) :
    uniqueOk c l = true ↔ l.Pairwise (fun a b => ¬ c a b = true) := by
  induction l with
  | nil => simp [uniqueOk]
  | cons a t ih =>
    simp only [uniqueOk, Bool.and_eq_true, Bool.not_eq_true', List.any_eq_false,
      List.pairwise_cons, ih, Bool.not_eq_true]

theorem urConflict_iff (a b : UserRoleRow) :
    urConflict a b = true ↔ a.user_id = b.user_id ∧ a.org_id = b.org_id := by
  simp [urConflict]

theorem projConflict_iff (a b : ProjectRow) :
    projConflict a b = true ↔ a.org_id = b.org_id ∧ a.key = b.key := by
  simp [projConflict]

theorem issueConflict_iff (a b : IssueRow) :
    issueConflict a b = true ↔ a.project_id = b.project_id ∧ a.issue_key = b.issue_key := by
  simp [issueConflict]

theorem invariant_iff_uniqueOk (s : DBState) :
    Invariant s ↔
      (uniqueOk urConflict s.user_roles = true ∧
       uniqueOk projConflict s.projects = true ∧
       uniqueOk issueConflict s.issues = true) := by
  rw [Invariant, uniqueOk_iff_pairwise, uniqueOk_iff_pairwise, uniqueOk_iff_pairwise]
  constructor
  · rintro ⟨h1, h2, h3⟩
    exact ⟨h1.imp (fun h => (not_congr (urConflict_iff _ _)).mpr h),
      h2.imp (fun h => (not_congr (projConflict_iff _ _)).mpr h),
      h3.imp (fun h => (not_congr (issueConflict_iff _ _)).mpr h)⟩
  · rintro ⟨h1, h2, h3⟩
    exact ⟨h1.imp (fun h => (not_congr (urConflict_iff _ _)).mp h),
      h2.imp (fun h => (not_congr (projConflict_iff _ _)).mp h),
      h3.imp (fun h => (not_congr (issueConflict_iff _ _)).mp h)⟩

theorem applyOp_ok_eq_naive (s s2 : DBState) (op : DBOp)
    (h : applyOp s op = Except.ok s2) : s2 = naiveApply s op := by
  cases op with
  | insUserRole r =>
    simp only [applyOp, insertUserRole] at h
    split at h
    · cases h
    · cases h; rfl
  | insProject p =>
    simp only [applyOp, insertProject] at h
    split at h
    · cases h
    · cases h; rfl
  | insIssue i =>
    simp only [applyOp, insertIssue] at h
    split at h
    · cases h
    · cases h; rfl
  | updUserRoleOrg rid o =>
    simp only [applyOp] at h
    split at h
    · cases h; rfl
    · cases h
  | updProjectKey pid k =>
    simp only [applyOp] at h
    split at h
    · cases h; rfl
    · cases h
  | updIssueKey iid k =>
    simp only [applyOp] at h
    split at h
    · cases h; rfl
    · cases h

theorem applyOp_ok_invariant (s s2 : DBState) (op : DBOp) (hinv : Invariant s)
    (h : applyOp s op = Except.ok s2) : Invariant s2 := by
  obtain ⟨h1, h2, h3⟩ := hinv
  cases op with
  | insUserRole r =>
    simp only [applyOp, insertUserRole] at h
    split at h
    · cases h
    · rename_i hany
      cases h
      refine ⟨List.Pairwise.cons ?_ h1, h2, h3⟩
      intro x hx
      have hfalse : urConflict r x = false := by
        rw [Bool.not_eq_true, List.any_eq_false] at hany
        simpa using hany x hx
      exact (not_congr (urConflict_iff r x)).mp (by simp [hfalse])
  | insProject p =>
    simp only [applyOp, insertProject] at h
    split at h
    · cases h
    · rename_i hany
      cases h
      refine ⟨h1, List.Pairwise.cons ?_ h2, h3⟩
      intro x hx
      have hfalse : projConflict p x = false := by
        rw [Bool.not_eq_true, List.any_eq_false] at hany
        simpa using hany x hx
      exact (not_congr (projConflict_iff p x)).mp (by simp [hfalse])
  | insIssue i =>
    simp only [applyOp, insertIssue] at h
    split at h
    · cases h
    · rename_i hany
      cases h
      refine ⟨h1, h2, List.Pairwise.cons ?_ h3⟩
      intro x hx
      have hfalse : issueConflict i x = false := by
        rw [Bool.not_eq_true, List.any_eq_false] at hany
        simpa using hany x hx
      exact (not_congr (issueConflict_iff i x)).mp (by simp [hfalse])
  | updUserRoleOrg rid o =>
    simp only [applyOp] at h
    split at h
    · rename_i hok
      cases h
      refine ⟨((uniqueOk_iff_pairwise _ _).mp hok).imp
        (fun hc => (not_congr (urConflict_iff _ _)).mp hc), h2, h3⟩
    · cases h
  | updProjectKey pid k =>
    simp only [applyOp] at h
    split at h
    · rename_i hok
      cases h
      refine ⟨h1, ((uniqueOk_iff_pairwise _ _).mp hok).imp
        (fun hc => (not_congr (projConflict_iff _ _)).mp hc), h3⟩
    · cases h
  | updIssueKey iid k =>
    simp only [applyOp] at h
    split at h
    · rename_i hok
      cases h
      refine ⟨h1, h2, ((uniqueOk_iff_pairwise _ _).mp hok).imp
        (fun hc => (not_congr (issueConflict_iff _ _)).mp hc)⟩
    · cases h

/-- C3: every reachable database state satisfies the three uniqueness
invariants (no two issues of one project share `issue_key`, no two projects
of one organization share `key`, no two `user_roles` rows share
`(user_id, org_id)`), and from a reachable state every insert or update
whose naive effect would break one of them fails and leaves the state
unchanged. -/
theorem unique_constraints_enforced :
    (∀ s : DBState, Reachable s → Invariant s) ∧
    (∀ (s : DBState) (op : DBOp), Reachable s → ¬ Invariant (naiveApply s op) →
      (∃ e, applyOp s op = Except.error e) ∧ runOp s op = s) := by
  have hreachinv : ∀ s : DBState, Reachable s → Invariant s := by
    intro s h
    induction h with
    | empty => exact ⟨List.Pairwise.nil, List.Pairwise.nil, List.Pairwise.nil⟩
    | step op hr hok ih => exact applyOp_ok_invariant _ _ op ih hok
  refine ⟨hreachinv, fun s op hr hviol => ?_⟩
  cases hres : applyOp s op with
  | error e => exact ⟨⟨e, rfl⟩, by simp [runOp, hres]⟩
  | ok s2 =>
    exfalso
    apply hviol
    have h2 := applyOp_ok_invariant s s2 op (hreachinv s hr) hres
    rwa [applyOp_ok_eq_naive s s2 op hres] at h2

/-- C3 witness: in the reachable one-row state, inserting a second
`user_roles` row with the same `(user_id, org_id)` fails and leaves the
state unchanged. -/
theorem unique_constraints_enforced_witness :
    Invariant ⟨[], [⟨0, 1, 2, AppRole.admin⟩], [], [], [], [], [], []⟩ ∧
    (∃ e, applyOp ⟨[], [⟨0, 1, 2, AppRole.admin⟩], [], [], [], [], [], []⟩
      (DBOp.insUserRole ⟨7, 1, 2, AppRole.viewer⟩) = Except.error e) ∧
    runOp ⟨[], [⟨0, 1, 2, AppRole.admin⟩], [], [], [], [], [], []⟩
      (DBOp.insUserRole ⟨7, 1, 2, AppRole.viewer⟩)
      = ⟨[], [⟨0, 1, 2, AppRole.admin⟩], [], [], [], [], [], []⟩ := by
  have hreach : Reachable ⟨[], [⟨0, 1, 2, AppRole.admin⟩], [], [], [], [], [], []⟩ :=
    Reachable.step (DBOp.insUserRole ⟨0, 1, 2, AppRole.admin⟩) Reachable.empty rfl
  have hviol : ¬ Invariant (naiveApply ⟨[], [⟨0, 1, 2, AppRole.admin⟩], [], [], [], [], [], []⟩
      (DBOp.insUserRole ⟨7, 1, 2, AppRole.viewer⟩)) := by
    intro h
    have h2 := h.1
    simp [naiveApply, List.pairwise_cons] at h2
  obtain ⟨part1, part2⟩ := unique_constraints_enforced
  have hres := part2 _ _ hreach hviol
  exact ⟨part1 _ hreach, hres.1, hres.2⟩

/-! ## C4: row-level-security SELECT policies versus role membership -/

theorem userRolesSub_any_iff (s : DBState) (uid o : Nat) :
    ((s.user_roles.filter (fun ur => ur.user_id == uid)).any
      (fun ur => ur.org_id == o) = true) ↔ HasMembership s uid o := by
  simp only [HasMembership, List.any_eq_true, List.mem_filter, beq_iff_eq]
  tauto

theorem projJoin_any_iff (s : DBState) (uid pidv : Nat) :
    ((s.projects.filter (fun p =>
        s.user_roles.any (fun ur => ur.org_id == p.org_id && ur.user_id == uid))).any
      (fun p => p.id == pidv) = true) ↔
    ∃ p ∈ s.projects, p.id = pidv ∧ HasMembership s uid p.org_id := by
  simp only [HasMembership, List.any_eq_true, List.mem_filter, Bool.and_eq_true, beq_iff_eq]
  tauto

theorem profJoin_any_iff (s : DBState) (uid pidv : Nat) :
    ((s.projects.filter (fun p =>
        s.profiles.any (fun pr => pr.org_id == some p.org_id && pr.id == uid))).any
      (fun p => p.id == pidv) = true) ↔
    ∃ p ∈ s.projects, p.id = pidv ∧ ProfileInOrg s uid p.org_id := by
  simp only [ProfileInOrg, List.any_eq_true, List.mem_filter, Bool.and_eq_true, beq_iff_eq]
  tauto

/-- The database on which the claimed uniform membership gating fails: user
1 has a `user_roles` membership in organization 5, which owns project 2
with sprint 3, but user 1 has no `profiles` row. -/
def sprintCexDB : DBState :=
  ⟨[], [⟨0, 1, 5, AppRole.admin⟩], [⟨2, 5, "P"⟩], [⟨3, 2⟩], [], [], [], []⟩

/-- C4 counterexample: user 1 is recorded in `user_roles` as a member of
organization 5, and sprint 3 belongs to organization 5's project 2, yet
the sprints SELECT policy denies user 1 the row — the policy joins through
`profiles`, which has no row for the user, so visibility is not equivalent
to `user_roles` membership. -/
theorem sprint_policy_not_membership_gated :
    HasMembership sprintCexDB 1 5 ∧
    (⟨3, 2⟩ : SprintRow) ∈ sprintCexDB.sprints ∧
    (⟨2, 5, "P"⟩ : ProjectRow) ∈ sprintCexDB.projects ∧
    sprintSelectPolicy sprintCexDB 1 ⟨3, 2⟩ = false := by
  refine ⟨⟨⟨0, 1, 5, AppRole.admin⟩, by decide, rfl, rfl⟩, by decide, by decide, by decide⟩

/-- C4 (amended): the SELECT policies of `projects`, `user_roles`,
`invites`, `issues` and `deployments` grant a user a row exactly when
`user_roles` records a membership for the user in the row's organization
(for `issues` and `deployments`, the organization of the row's project);
the `sprints` and `boards` policies were never migrated and instead grant
a row exactly when the user's `profiles` row carries the organization of
the row's project. -/
theorem select_policies_characterization (s : DBState) (uid : Nat) :
    (∀ p : ProjectRow, projectSelectPolicy s uid p = true ↔ HasMembership s uid p.org_id) ∧
    (∀ r : UserRoleRow, userRoleSelectPolicy s uid r = true ↔ HasMembership s uid r.org_id) ∧
    (∀ iv : InviteRow, inviteSelectPolicy s uid iv = true ↔ HasMembership s uid iv.org_id) ∧
    (∀ i : IssueRow, issueSelectPolicy s uid i = true ↔
      ∃ p ∈ s.projects, p.id = i.project_id ∧ HasMembership s uid p.org_id) ∧
    (∀ d : DeploymentRow, deploymentSelectPolicy s uid d = true ↔
      ∃ p ∈ s.projects, p.id = d.project_id ∧ HasMembership s uid p.org_id) ∧
    (∀ sp : SprintRow, sprintSelectPolicy s uid sp = true ↔
      ∃ p ∈ s.projects, p.id = sp.project_id ∧ ProfileInOrg s uid p.org_id) ∧
    (∀ b : BoardRow, boardSelectPolicy s uid b = true ↔
      ∃ p ∈ s.projects, p.id = b.project_id ∧ ProfileInOrg s uid p.org_id) := by
  refine ⟨fun p => ?_, fun r => ?_, fun iv => ?_, fun i => ?_, fun d => ?_, fun sp => ?_, fun b => ?_⟩
  · exact userRolesSub_any_iff s uid p.org_id
  · exact userRolesSub_any_iff s uid r.org_id
  · exact userRolesSub_any_iff s uid iv.org_id
  · exact projJoin_any_iff s uid i.project_id
  · exact projJoin_any_iff s uid d.project_id
  · exact profJoin_any_iff s uid sp.project_id
  · exact profJoin_any_iff s uid b.project_id

/-! ## C5 and C6: invite acceptance is single-use and time-bounded -/

/-- C5: invites are single-use.  When every invite carrying the given token
has a non-null `accepted_at`, `acceptInvite` reports 'Invitation not found
or already accepted' and leaves the database — the acceptor's profile, the
`user_roles` table, and the invite row — unchanged. -/
theorem accept_invite_single_use (s : DBState) (uid : Nat) (em t : String)
    (now : Int) (rid : Nat)
    (h : ∀ inv ∈ s.invites, inv.token = t → inv.accepted_at ≠ none) :
    acceptInvite s uid em (some t) now rid = (AcceptOutcome.notFoundOrAccepted, s) ∧
    AcceptOutcome.notFoundOrAccepted.message = "Invitation not found or already accepted" := by
  have hfil : s.invites.filter (fun i => i.token == t && i.accepted_at == none) = [] := by
    rw [List.filter_eq_nil_iff]
    intro inv hmem
    simp only [Bool.and_eq_true, beq_iff_eq, not_and]
    intro htok hacc
    exact h inv hmem htok hacc
  exact ⟨by simp [acceptInvite, findInviteByToken, hfil], rfl⟩

/-- C5 witness: a database whose only invite with token `tok` was accepted
at time 50 rejects a second acceptance and is left unchanged. -/
theorem accept_invite_single_use_witness :
    acceptInvite ⟨[], [], [], [], [], [], [⟨0, 5, "a@b.c", AppRole.viewer, "tok", 1000, some 50, some 2⟩], []⟩
        1 "a@b.c" (some "tok") 99 7
      = (AcceptOutcome.notFoundOrAccepted,
         ⟨[], [], [], [], [], [], [⟨0, 5, "a@b.c", AppRole.viewer, "tok", 1000, some 50, some 2⟩], []⟩) ∧
    AcceptOutcome.notFoundOrAccepted.message = "Invitation not found or already accepted" :=
  accept_invite_single_use _ 1 "a@b.c" "tok" 99 7 (by decide)

/-- C6: invites are time-bounded.  When the (single) pending invite with
the given token is expired, `acceptInvite` reports the invitation as
expired and performs no mutation: the database is unchanged, so the
invite's `accepted_at` stays null, no `user_roles` row is inserted, and the
acceptor's profile keeps its `org_id`. -/
theorem accept_invite_expired (s : DBState) (uid : Nat) (em t : String)
    (now : Int) (rid : Nat) (inv : InviteRow)
    (hfil : s.invites.filter (fun i => i.token == t && i.accepted_at == none) = [inv])
    (hexp : inv.expires_at < now) :
    acceptInvite s uid em (some t) now rid = (AcceptOutcome.expired, s) ∧
    AcceptOutcome.expired.message = "This invitation has expired" :=
  ⟨by simp [acceptInvite, findInviteByToken, hfil, hexp], rfl⟩

/-- C6 witness: a pending invite that expired at time 1000 is rejected as
expired at time 2000 and the database is unchanged. -/
theorem accept_invite_expired_witness :
    acceptInvite ⟨[], [], [], [], [], [], [⟨0, 5, "a@b.c", AppRole.viewer, "tok", 1000, none, none⟩], []⟩
        1 "a@b.c" (some "tok") 2000 7
      = (AcceptOutcome.expired,
         ⟨[], [], [], [], [], [], [⟨0, 5, "a@b.c", AppRole.viewer, "tok", 1000, none, none⟩], []⟩) ∧
    AcceptOutcome.expired.message = "This invitation has expired" :=
  accept_invite_expired _ 1 "a@b.c" "tok" 2000 7
    ⟨0, 5, "a@b.c", AppRole.viewer, "tok", 1000, none, none⟩ (by decide) (by decide)

/-! ## C7: the security-definer helpers -/

/-- C7: `has_role` returns true exactly when a `user_roles` row with the
given `(user_id, org_id, role)` triple exists; under the `(user_id,
org_id)` uniqueness invariant, `get_user_role` returns the role of the
unique matching row when one exists and nothing otherwise. -/
theorem role_helpers_spec (s : DBState) (u o : Nat) (r : AppRole)
    (huniq : s.user_roles.Pairwise (fun a b => ¬(a.user_id = b.user_id ∧ a.org_id = b.org_id))) :
    (has_role s u o r = true ↔
      ∃ ur ∈ s.user_roles, ur.user_id = u ∧ ur.org_id = o ∧ ur.role = r) ∧
    (∀ ur ∈ s.user_roles, ur.user_id = u → ur.org_id = o →
      get_user_role s u o = some ur.role) ∧
    ((∀ ur ∈ s.user_roles, ¬(ur.user_id = u ∧ ur.org_id = o)) →
      get_user_role s u o = none) := by
  refine ⟨?_, ?_, ?_⟩
  · simp only [has_role, List.any_eq_true, Bool.and_eq_true, beq_iff_eq]
    tauto
  · intro ur hmem hu ho
    cases hf : s.user_roles.find? (fun x => x.user_id == u && x.org_id == o) with
    | none =>
      have hnone := List.find?_eq_none.mp hf ur hmem
      simp [hu, ho] at hnone
    | some x =>
      have hxmem : x ∈ s.user_roles := List.mem_of_find?_eq_some hf
      have hxpred := List.find?_some hf
      simp only [Bool.and_eq_true, beq_iff_eq] at hxpred
      have hx : x = ur := by
        by_contra hne
        have hsym : Symmetric (fun a b : UserRoleRow =>
            ¬(a.user_id = b.user_id ∧ a.org_id = b.org_id)) := by
          intro a b hab hcon
          exact hab ⟨hcon.1.symm, hcon.2.symm⟩
        exact (huniq.forall hsym hxmem hmem hne)
          ⟨hxpred.1.trans hu.symm, hxpred.2.trans ho.symm⟩
      rw [get_user_role, hf, hx]
      rfl
  · intro hno
    have hfn : s.user_roles.find? (fun x => x.user_id == u && x.org_id == o) = none := by
      rw [List.find?_eq_none]
      intro x hx
      simp only [Bool.and_eq_true, beq_iff_eq]
      exact fun hcon => hno x hx hcon
    rw [get_user_role, hfn]
    rfl

/-- C7 witness: with the single row `(user 1, org 2, manager)`,
`get_user_role` returns `manager`. -/
theorem role_helpers_spec_witness :
    get_user_role ⟨[], [⟨0, 1, 2, AppRole.manager⟩], [], [], [], [], [], []⟩ 1 2
      = some AppRole.manager :=
  (role_helpers_spec ⟨[], [⟨0, 1, 2, AppRole.manager⟩], [], [], [], [], [], []⟩ 1 2
      AppRole.manager (by simp)).2.1
    ⟨0, 1, 2, AppRole.manager⟩ (by simp) rfl rfl

/-! ## C8: how backend-call errors are surfaced -/

/-- C8 counterexample: the `Board.loadIssues` backend call catches its
error but only logs it to the console, so not every caught backend error
is surfaced to the user as a toast. -/
theorem board_load_errors_not_toasted :
    (⟨"Board", "loadIssues", ErrorSurface.consoleLog⟩ : CallSite) ∈ clientCallSites ∧
    ErrorSurface.consoleLog ≠ ErrorSurface.toast := by
  decide

/-- C8 (amended): a backend call site surfaces its error as a toast exactly
when it is one of the dialog form-submission handlers or the issue-detail
sheet's load/update calls; the Board and Dashboard loaders only log to the
console, the remaining loaders ignore errors, and AcceptInvite surfaces
errors as an inline status card. -/
theorem error_surface_classification :
    ∀ cs ∈ clientCallSites, (cs.surface = ErrorSurface.toast ↔ cs ∈ toastCallSites) := by
  decide

/-- C8 amended witness: the CreateOrgDialog submit handler both toasts and
is in the toast list. -/
theorem error_surface_classification_witness :
    (⟨"CreateOrgDialog", "handleSubmit", ErrorSurface.toast⟩ : CallSite).surface = ErrorSurface.toast
      ↔ (⟨"CreateOrgDialog", "handleSubmit", ErrorSurface.toast⟩ : CallSite) ∈ toastCallSites :=
  error_surface_classification ⟨"CreateOrgDialog", "handleSubmit", ErrorSurface.toast⟩ (by decide)

/-! ## C9: the invite rows assembled by CreateInviteDialog -/

theorem inviteRoleSel_ne_owner (r : InviteRoleSel) : r.toAppRole ≠ AppRole.owner := by
  cases r <;> simp [InviteRoleSel.toAppRole]

theorem mkInviteRows_spec (orgId : Nat) (role : InviteRoleSel) (now : Int) (uid : Nat)
    (tok : Nat → String) :
    ∀ (i0 : Nat) (es : List String), ∀ inv ∈ mkInviteRows orgId role now uid tok i0 es,
      inv.role = role.toAppRole ∧ (∃ e ∈ es, inv.email = jsToLowerCase (jsTrim e)) ∧
      inv.expires_at = now + 7 * 24 * 60 * 60 * 1000 := by
  intro i0 es
  induction es generalizing i0 with
  | nil =>
    intro inv h
    simp [mkInviteRows] at h
  | cons e es ih =>
    intro inv h
    simp only [mkInviteRows] at h
    rcases List.mem_cons.mp h with rfl | htail
    · exact ⟨rfl, ⟨e, List.mem_cons_self e es, rfl⟩, rfl⟩
    · obtain ⟨h1, ⟨e2, he2, hem⟩, h3⟩ := ih (i0 + 1) inv htail
      exact ⟨h1, ⟨e2, List.mem_cons_of_mem e he2, hem⟩, h3⟩

/-- C9: every invite row assembled by `CreateInviteDialog.handleSubmit`
carries the selected role — one of admin, manager, contributor, viewer,
never owner —, an email that is some submitted address trimmed and
lowercased, and an expiry exactly 7 days after the moment of creation. -/
theorem create_invite_rows_spec (orgId : Nat) (emails : List String) (role : InviteRoleSel)
    (now : Int) (uid : Nat) (tok : Nat → String) :
    ∀ inv ∈ createInviteRows orgId emails role now uid tok,
      (inv.role = role.toAppRole ∧ inv.role ≠ AppRole.owner) ∧
      (∃ e ∈ emails, inv.email = jsToLowerCase (jsTrim e)) ∧
      inv.expires_at = now + 7 * 24 * 60 * 60 * 1000 := by
  intro inv h
  obtain ⟨h1, ⟨e, he, hem⟩, h3⟩ :=
    mkInviteRows_spec orgId role now uid tok 0 (validEmails emails) inv h
  have hemem : e ∈ emails := by
    simp only [validEmails] at he
    exact (List.mem_filter.mp he).1
  exact ⟨⟨h1, h1 ▸ inviteRoleSel_ne_owner role⟩, ⟨e, hemem, hem⟩, h3⟩

/-- C9 witness: submitting `"  A@B.c "` (and an address without `@`, which
is dropped) as viewer at time 0 produces exactly one row, with email
`a@b.c`, role viewer, expiry 604800000 ms. -/
theorem create_invite_rows_spec_witness :
    ((⟨7, "a@b.c", AppRole.viewer, "tk", 604800000, 3⟩ : NewInvite).role ≠ AppRole.owner) ∧
    (∃ e ∈ ["  A@B.c ", "bad"],
      (⟨7, "a@b.c", AppRole.viewer, "tk", 604800000, 3⟩ : NewInvite).email
        = jsToLowerCase (jsTrim e)) ∧
    (⟨7, "a@b.c", AppRole.viewer, "tk", 604800000, 3⟩ : NewInvite).expires_at
      = 0 + 7 * 24 * 60 * 60 * 1000 := by
  have h := create_invite_rows_spec 7 ["  A@B.c ", "bad"] InviteRoleSel.viewer 0 3
    (fun _ => "tk") ⟨7, "a@b.c", AppRole.viewer, "tk", 604800000, 3⟩ (by decide)
  exact ⟨h.1.2, h.2.1, h.2.2⟩

/-! ## C10: the organization slug generator -/

theorem alnum_ne_hyphen {c : Char} (h : isSlugAlnum c = true) : c ≠ '-' := by
  intro hc
  subst hc
  exact absurd h (by decide)

theorem collapseRuns_chars :
    ∀ (l : List Char) (b : Bool), ∀ c ∈ collapseRuns b l, isSlugAlnum c = true ∨ c = '-' := by
  intro l
  induction l with
  | nil =>
    intro b c hc
    simp [collapseRuns] at hc
  | cons a t ih =>
    intro b c hc
    by_cases ha : isSlugAlnum a = true
    · rw [show collapseRuns b (a :: t) = a :: collapseRuns false t from by
          simp [collapseRuns, ha]] at hc
      rcases List.mem_cons.mp hc with rfl | ht
      · exact Or.inl ha
      · exact ih false c ht
    · cases b with
      | true =>
        rw [show collapseRuns true (a :: t) = collapseRuns true t from by
            simp [collapseRuns, ha]] at hc
        exact ih true c hc
      | false =>
        rw [show collapseRuns false (a :: t) = '-' :: collapseRuns true t from by
            simp [collapseRuns, ha]] at hc
        rcases List.mem_cons.mp hc with rfl | ht
        · exact Or.inr rfl
        · exact ih true c ht

theorem collapseRuns_chain :
    ∀ (l : List Char),
      List.Chain' (fun a b => a = '-' → b ≠ '-') (collapseRuns false l) ∧
      List.Chain' (fun a b => a = '-' → b ≠ '-') (collapseRuns true l) ∧
      (∀ c, (collapseRuns true l).head? = some c → isSlugAlnum c = true) := by
  intro l
  induction l with
  | nil =>
    refine ⟨List.chain'_nil, List.chain'_nil, ?_⟩
    intro c hc
    simp [collapseRuns] at hc
  | cons a t ih =>
    obtain ⟨ihf, iht, ihh⟩ := ih
    by_cases ha : isSlugAlnum a = true
    · have hrw : ∀ b : Bool, collapseRuns b (a :: t) = a :: collapseRuns false t := by
        intro b; simp [collapseRuns, ha]
      have hch : List.Chain' (fun a b => a = '-' → b ≠ '-') (a :: collapseRuns false t) := by
        rw [List.chain'_cons']
        exact ⟨fun y _ hae => absurd hae (alnum_ne_hyphen ha), ihf⟩
      refine ⟨by rw [hrw false]; exact hch, by rw [hrw true]; exact hch, ?_⟩
      intro c hc
      rw [hrw true] at hc
      simp only [List.head?_cons, Option.some.injEq] at hc
      subst hc
      exact ha
    · have hrwt : collapseRuns true (a :: t) = collapseRuns true t := by
        simp [collapseRuns, ha]
      have hrwf : collapseRuns false (a :: t) = '-' :: collapseRuns true t := by
        simp [collapseRuns, ha]
      refine ⟨?_, by rw [hrwt]; exact iht, by rw [hrwt]; exact ihh⟩
      rw [hrwf, List.chain'_cons']
      refine ⟨?_, iht⟩
      intro y hy _
      exact alnum_ne_hyphen (ihh y (Option.mem_def.mp hy))

theorem head?_of_dropLast_head? :
    ∀ (l : List Char) (c : Char), l.dropLast.head? = some c → l.head? = some c := by
  intro l c h
  cases l with
  | nil => simp at h
  | cons a t =>
    cases t with
    | nil => simp at h
    | cons b t2 =>
      rw [List.dropLast_cons₂] at h
      simp only [List.head?_cons, Option.some.injEq] at h ⊢
      exact h

theorem chain_dropLast_getLast :
    ∀ (l : List Char), List.Chain' (fun a b => a = '-' → b ≠ '-') l →
      l.getLast? = some '-' → ¬(l.dropLast.getLast? = some '-') := by
  intro l
  induction l with
  | nil =>
    intro _ h
    simp at h
  | cons a t ih =>
    intro hch hl
    cases t with
    | nil => simp
    | cons b t2 =>
      rw [List.getLast?_cons_cons] at hl
      cases t2 with
      | nil =>
        intro hcon
        simp only [List.getLast?_singleton, Option.some.injEq] at hl
        simp only [List.dropLast_cons₂, List.dropLast_single, List.getLast?_singleton,
          Option.some.injEq] at hcon
        exact (List.chain'_cons.mp hch).1 hcon hl
      | cons c t3 =>
        have ihres := ih (List.Chain'.tail hch) hl
        rw [List.dropLast_cons₂] at ihres
        rw [List.dropLast_cons₂, List.dropLast_cons₂, List.getLast?_cons_cons]
        exact ihres

theorem dropLeadingHyphen_head (l : List Char)
    (hch : List.Chain' (fun a b => a = '-' → b ≠ '-') l) :
    ¬((dropLeadingHyphen l).head? = some '-') := by
  unfold dropLeadingHyphen
  split
  · rename_i hc
    cases l with
    | nil => simp at hc
    | cons a t =>
      simp only [List.head?_cons, Option.some.injEq] at hc
      subst hc
      simp only [List.tail_cons]
      intro hcon
      have h2 := (List.chain'_cons'.mp hch).1 '-' (Option.mem_def.mpr hcon)
      exact (h2 rfl) rfl
  · rename_i hc
    exact hc

theorem dropLeadingHyphen_chain (l : List Char)
    (hch : List.Chain' (fun a b => a = '-' → b ≠ '-') l) :
    List.Chain' (fun a b => a = '-' → b ≠ '-') (dropLeadingHyphen l) := by
  unfold dropLeadingHyphen
  split
  · exact hch.tail
  · exact hch

theorem dropTrailingHyphen_getLast (l : List Char)
    (hch : List.Chain' (fun a b => a = '-' → b ≠ '-') l) :
    ¬((dropTrailingHyphen l).getLast? = some '-') := by
  unfold dropTrailingHyphen
  split
  · rename_i hc
    exact chain_dropLast_getLast l hch hc
  · rename_i hc
    exact hc

theorem dropTrailingHyphen_head? (l : List Char) (c : Char)
    (h : (dropTrailingHyphen l).head? = some c) : l.head? = some c := by
  unfold dropTrailingHyphen at h
  split at h
  · exact head?_of_dropLast_head? l c h
  · exact h

theorem dropTrailingHyphen_chain (l : List Char)
    (hch : List.Chain' (fun a b => a = '-' → b ≠ '-') l) :
    List.Chain' (fun a b => a = '-' → b ≠ '-') (dropTrailingHyphen l) := by
  unfold dropTrailingHyphen
  split
  · exact hch.init
  · exact hch

theorem dropLeadingHyphen_sublist (l : List Char) :
    List.Sublist (dropLeadingHyphen l) l := by
  unfold dropLeadingHyphen
  split
  · exact List.tail_sublist l
  · exact List.Sublist.refl l

theorem dropTrailingHyphen_sublist (l : List Char) :
    List.Sublist (dropTrailingHyphen l) l := by
  unfold dropTrailingHyphen
  split
  · exact List.dropLast_sublist l
  · exact List.Sublist.refl l

theorem stripEdgeHyphens_sublist (l : List Char) :
    List.Sublist (stripEdgeHyphens l) l :=
  (dropTrailingHyphen_sublist (dropLeadingHyphen l)).trans (dropLeadingHyphen_sublist l)

theorem jsLowerChar_fixed {c : Char} (h : isSlugAlnum c = true ∨ c = '-') :
    jsLowerChar c = c := by
  rcases h with h | rfl
  · unfold jsLowerChar
    rw [if_neg]
    rintro ⟨h1, h2⟩
    simp only [isSlugAlnum, Bool.or_eq_true, Bool.and_eq_true, decide_eq_true_eq] at h
    rcases h with ⟨ha, _⟩ | ⟨_, hb⟩
    · exact absurd (le_trans ha h2) (by decide)
    · exact absurd (le_trans h1 hb) (by decide)
  · decide

theorem map_fixed_of_forall {f : Char → Char} :
    ∀ (l : List Char), (∀ c ∈ l, f c = c) → l.map f = l := by
  intro l
  induction l with
  | nil => intro _; rfl
  | cons a t ih =>
    intro h
    simp only [List.map_cons]
    rw [h a (List.mem_cons_self a t), ih (fun c hc => h c (List.mem_cons_of_mem a hc))]

theorem collapseRuns_fixed :
    ∀ (l : List Char), (∀ c ∈ l, isSlugAlnum c = true ∨ c = '-') →
      List.Chain' (fun a b => a = '-' → b ≠ '-') l →
      collapseRuns false l = l := by
  intro l
  induction l with
  | nil => intro _ _; rfl
  | cons a t ih =>
    intro hcs hch
    rcases hcs a (List.mem_cons_self a t) with ha | ha
    · rw [show collapseRuns false (a :: t) = a :: collapseRuns false t from by
          simp [collapseRuns, ha]]
      rw [ih (fun c hc => hcs c (List.mem_cons_of_mem a hc)) hch.tail]
    · subst ha
      rw [show collapseRuns false ('-' :: t) = '-' :: collapseRuns true t from by
          simp [collapseRuns, show isSlugAlnum '-' = false from by decide]]
      cases t with
      | nil => rfl
      | cons b t2 =>
        have hb : isSlugAlnum b = true := by
          rcases hcs b (List.mem_cons_of_mem _ (List.mem_cons_self b t2)) with h | h
          · exact h
          · exact absurd h ((List.chain'_cons.mp hch).1 rfl)
        rw [show collapseRuns true (b :: t2) = b :: collapseRuns false t2 from by
            simp [collapseRuns, hb]]
        have hfix := ih (fun c hc => hcs c (List.mem_cons_of_mem _ hc)) hch.tail
        rw [show collapseRuns false (b :: t2) = b :: collapseRuns false t2 from by
            simp [collapseRuns, hb], List.cons.injEq] at hfix
        rw [hfix.2]

/-- C10: `generateSlug` produces only lowercase letters, digits and
hyphens, never starts or ends with a hyphen, and is idempotent: applying
it to its own output returns the output unchanged. -/
theorem generateSlug_wellformed_idempotent (s : String) :
    (∀ c ∈ (generateSlug s).data, isSlugAlnum c = true ∨ c = '-') ∧
    ¬((generateSlug s).data.head? = some '-') ∧
    ¬((generateSlug s).data.getLast? = some '-') ∧
    generateSlug (generateSlug s) = generateSlug s := by
  have hcolchain := (collapseRuns_chain (s.data.map jsLowerChar)).1
  have hchars : ∀ c ∈ (generateSlug s).data, isSlugAlnum c = true ∨ c = '-' := by
    intro c hc
    exact collapseRuns_chars (s.data.map jsLowerChar) false c
      ((stripEdgeHyphens_sublist _).subset hc)
  have hchain : List.Chain' (fun a b => a = '-' → b ≠ '-') (generateSlug s).data :=
    dropTrailingHyphen_chain _ (dropLeadingHyphen_chain _ hcolchain)
  have hhead : ¬((generateSlug s).data.head? = some '-') := by
    intro hcon
    exact dropLeadingHyphen_head _ hcolchain (dropTrailingHyphen_head? _ '-' hcon)
  have hlast : ¬((generateSlug s).data.getLast? = some '-') :=
    dropTrailingHyphen_getLast _ (dropLeadingHyphen_chain _ hcolchain)
  refine ⟨hchars, hhead, hlast, ?_⟩
  show (⟨stripEdgeHyphens (collapseRuns false ((generateSlug s).data.map jsLowerChar))⟩ : String)
    = generateSlug s
  rw [map_fixed_of_forall _ (fun c hc => jsLowerChar_fixed (hchars c hc))]
  rw [collapseRuns_fixed _ hchars hchain]
  rw [show stripEdgeHyphens (generateSlug s).data = (generateSlug s).data from by
    rw [stripEdgeHyphens, dropLeadingHyphen, if_neg hhead, dropTrailingHyphen, if_neg hlast]]

end Fizz
